import Mathlib

/-!
Verification of the `extract_chains` trace decoder and plot-geometry layer
(`src/main.rs`).

The input buffer is modelled as a `List Nat` of byte values; Rust `u32`
values are modelled as `Nat` with explicit `% 2^32` wherever the source
performs (wrapping) `u32` addition; Rust panics (out-of-range slice
indexing, failed `unwrap` on numeric parses, invalid UTF-8) are modelled by
an explicit `Panic` error propagated in `Except`.  The loops of the source
are modelled by structural recursion, with a `fuel` argument standing in
for the source's progress on the cursor (top-level entry points pass
`bytes.length + 1`, far more fuel than any run can consume since every loop
iteration advances the cursor).

`f64` score fields are kept as their literal byte text (no claim depends on
the numeric value); the decoder checks, as `str::parse::<f64>` does, that
the text is a well-formed float literal and panics otherwise.
-/

/-- The ways the Rust source can panic while decoding. -/
inductive Panic where
  /-- Indexing `bytes[*i]` with the cursor past the end of the buffer. -/
  | bufferOutOfRange
  /-- Indexing `chains[n]` with `n` past the end of the chain list
      (the positional write in `parse_cigars`). -/
  | chainIndexOutOfRange
  /-- a failed `.parse().unwrap()` or `from_utf8(..).unwrap()`. -/
  | parseFail
  /-- fuel exhaustion of the model's bounded recursion (never reached by the
      top-level entry points, which pass more fuel than iterations exist). -/
  | fuelOut
deriving DecidableEq, Repr

/-- Model of `bytes[i]`: byte access, panicking when out of range. -/
def getB (bytes : List Nat) (i : Nat) : Except Panic Nat :=
  match bytes.get? i with
  | some b => .ok b
  | none => .error .bufferOutOfRange

/-- Span of bytes strictly before the first occurrence of `delim`;
`none` when the delimiter never occurs (the source's scan loop would then
index past the buffer and panic). -/
def scanSpan (l : List Nat) (delim : Nat) : Option (List Nat) :=
  match l with
  | [] => none
  | b :: rest => if b = delim then some [] else (scanSpan rest delim).map (b :: ·)

/-- Model of the scan loop `while bytes[*i] != delim`: returns the span
together with the index of the delimiter itself (the cursor's final
position; callers then skip past it with a fixed offset). -/
def scanUntil (bytes : List Nat) (delim : Nat) (i : Nat) :
    Except Panic (List Nat × Nat) :=
  match scanSpan (bytes.drop i) delim with
  | some sp => .ok (sp, i + sp.length)
  | none => .error .bufferOutOfRange

/-- ASCII digit bytes. -/
def isDigitByte (b : Nat) : Bool := 48 ≤ b && b ≤ 57

/-- Model of `str::parse::<u32>`: optional leading `'+'`, then one or more ASCII
digits, value below `2^32`. -/
def parseU32 (s : List Nat) : Except Panic Nat :=
  let digits := match s with
    | 43 :: r => r
    | _ => s
  if digits ≠ [] ∧ digits.all isDigitByte then
    let v := digits.foldl (fun a b => a * 10 + (b - 48)) 0
    if v < 2 ^ 32 then .ok v else .error .parseFail
  else .error .parseFail

/-- Nonempty all-digit byte span. -/
def isDigits (s : List Nat) : Bool := !s.isEmpty && s.all isDigitByte

/-- Exponent part of a float literal: optional sign then digits. -/
def expValid (s : List Nat) : Bool :=
  match s with
  | 43 :: r => isDigits r
  | 45 :: r => isDigits r
  | r => isDigits r

/-- Mantissa of a float literal: `Digit+ | Digit+ '.' Digit* | Digit* '.' Digit+`. -/
def mantissaValid (s : List Nat) : Bool :=
  match s.splitOn 46 with
  | [d] => isDigits d
  | [b, a] => (isDigits b && (a.isEmpty || isDigits a)) || (b.isEmpty && isDigits a)
  | _ => false

/-- Success condition of `str::parse::<f64>`: optional sign; `inf`/`infinity`/`nan`
(case-insensitive) or a decimal mantissa with optional exponent. -/
def f64Valid (s : List Nat) : Bool :=
  let t := match s with
    | 43 :: r => r
    | 45 :: r => r
    | _ => s
  let low := t.map (fun b => if 65 ≤ b && b ≤ 90 then b + 32 else b)
  if low = [105, 110, 102] ∨ low = [105, 110, 102, 105, 110, 105, 116, 121] ∨
      low = [110, 97, 110] then true
  else
    match low.splitOn 101 with
    | [m] => mantissaValid m
    | [m, e] => mantissaValid m && expValid e
    | _ => false

/-- Keeps the score span if it is a well-formed `f64` literal, else panics
(source: `.parse::<f64>().unwrap()`). -/
def parseF64 (s : List Nat) : Except Panic (List Nat) :=
  if f64Valid s then .ok s else .error .parseFail

/-- Model of `str::parse::<bool>`: exactly `true` or `false`. -/
def parseBool (s : List Nat) : Except Panic Bool :=
  if s = [116, 114, 117, 101] then .ok true
  else if s = [102, 97, 108, 115, 101] then .ok false
  else .error .parseFail

/-- A UTF-8 continuation byte. -/
def utf8Cont (b : Nat) : Bool := 128 ≤ b && b < 192

/-- Validity of a byte span as UTF-8 (what `std::str::from_utf8` checks),
including the overlong/surrogate restrictions on the first continuation. -/
def utf8Valid : List Nat → Bool
  | [] => true
  | b :: rest =>
    if b < 128 then utf8Valid rest
    else if 194 ≤ b && b ≤ 223 then
      match rest with
      | c1 :: r => utf8Cont c1 && utf8Valid r
      | [] => false
    else if b = 224 then
      match rest with
      | c1 :: c2 :: r => (160 ≤ c1 && c1 < 192) && utf8Cont c2 && utf8Valid r
      | _ => false
    else if (225 ≤ b && b ≤ 236) || b = 238 || b = 239 then
      match rest with
      | c1 :: c2 :: r => utf8Cont c1 && utf8Cont c2 && utf8Valid r
      | _ => false
    else if b = 237 then
      match rest with
      | c1 :: c2 :: r => (128 ≤ c1 && c1 < 160) && utf8Cont c2 && utf8Valid r
      | _ => false
    else if b = 240 then
      match rest with
      | c1 :: c2 :: c3 :: r =>
        (144 ≤ c1 && c1 < 192) && utf8Cont c2 && utf8Cont c3 && utf8Valid r
      | _ => false
    else if 241 ≤ b && b ≤ 243 then
      match rest with
      | c1 :: c2 :: c3 :: r => utf8Cont c1 && utf8Cont c2 && utf8Cont c3 && utf8Valid r
      | _ => false
    else if b = 244 then
      match rest with
      | c1 :: c2 :: c3 :: r =>
        (128 ≤ c1 && c1 < 144) && utf8Cont c2 && utf8Cont c3 && utf8Valid r
      | _ => false
    else false

/-- Model of `from_utf8(span).unwrap().parse::<String>().unwrap()`: the string field
is kept as its (validated) byte span. -/
def parseStr (s : List Nat) : Except Panic (List Nat) :=
  if utf8Valid s then .ok s else .error .parseFail

/-- A single k-mer match (`struct Anchor`). -/
structure Anchor where
  ref_start : Nat
  query_start : Nat
deriving DecidableEq, Repr

/-- A candidate chain (`struct Chain`).  `score` holds the literal text of
the `f64` field; `cigar`/`ssw_cigar` hold the raw (UTF-8 validated) bytes
of the string fields. -/
structure Chain where
  ref_id : Nat
  score : List Nat
  qspan : Nat × Nat
  rspan : Nat × Nat
  is_revcomp : Bool
  anchors : List Anchor
  cigar : List Nat
  ref_start : Nat
  considered : Bool
  ssw_cigar : List Nat
  ssw_ref_start : Nat
deriving DecidableEq, Repr

/-- A decoded read record (`struct Read`). -/
structure Read where
  name : List Nat
  read_len : Nat
  k : Nat
  fwd_anchors : List Anchor
  rev_anchors : List Anchor
  chains : List Chain
deriving DecidableEq, Repr

/-- Model of `fn parse_anchors`: decode ref/query start pairs until `]`.
Returns the list together with the cursor's final position (at the `]`). -/
def parse_anchors (bytes : List Nat) (i : Nat) : Nat → Except Panic (List Anchor × Nat)
  | 0 => .error .fuelOut
  | fuel + 1 => do
    let b ← getB bytes i
    if b = 93 then
      .ok ([], i)
    else do
      let (sp1, j1) ← scanUntil bytes 44 (i + 1)
      let ref_start ← parseU32 sp1
      let (sp2, j2) ← scanUntil bytes 125 (j1 + 1)
      let query_start ← parseU32 sp2
      let (rest, j3) ← parse_anchors bytes (j2 + 1) fuel
      .ok (⟨ref_start, query_start⟩ :: rest, j3)

/-- Model of `fn parse_chains`: decode the 7 scalar fields plus the nested anchor
list of each chain until `]`.  The fixed increments are the source's
skip-offsets past the literal field labels. -/
def parse_chains (bytes : List Nat) (i : Nat) : Nat → Except Panic (List Chain × Nat)
  | 0 => .error .fuelOut
  | fuel + 1 => do
    let b ← getB bytes i
    if b = 93 then
      .ok ([], i)
    else do
      let (sp1, j1) ← scanUntil bytes 44 (i + 8)
      let ref_id ← parseU32 sp1
      let (sp2, j2) ← scanUntil bytes 44 (j1 + 7)
      let score ← parseF64 sp2
      let (sp3, j3) ← scanUntil bytes 44 (j2 + 13)
      let query_start ← parseU32 sp3
      let (sp4, j4) ← scanUntil bytes 44 (j3 + 11)
      let query_end ← parseU32 sp4
      let (sp5, j5) ← scanUntil bytes 44 (j4 + 11)
      let ref_start ← parseU32 sp5
      let (sp6, j6) ← scanUntil bytes 44 (j5 + 9)
      let ref_end ← parseU32 sp6
      let (sp7, j7) ← scanUntil bytes 44 (j6 + 12)
      let is_revcomp ← parseBool sp7
      let (anchors, j8) ← parse_anchors bytes (j7 + 10) fuel
      let (rest, j9) ← parse_chains bytes (j8 + 2) fuel
      .ok ({ ref_id := ref_id, score := score,
             qspan := (query_start, query_end), rspan := (ref_start, ref_end),
             is_revcomp := is_revcomp, anchors := anchors,
             cigar := [], ref_start := 0, considered := false,
             ssw_cigar := [], ssw_ref_start := 0 } :: rest, j9)

/-- One detail entry of the second (full-mode) pass: CIGAR text, considered
flag (`bytes[..] == b'1'`), CIGAR reference start, secondary ("ssw") CIGAR
text and its reference start; returns the fields and the cursor position
just past the closing `)`. -/
def parse_cigar_entry (bytes : List Nat) (i : Nat) :
    Except Panic ((List Nat × Bool × Nat × List Nat × Nat) × Nat) := do
  let (sp1, j1) ← scanUntil bytes 44 (i + 1)
  let cigar ← parseStr sp1
  let cb ← getB bytes (j1 + 16)
  let considered := cb = 49
  let (sp2, j2) ← scanUntil bytes 44 (j1 + 25)
  let ref_start ← parseU32 sp2
  let (sp3, j3) ← scanUntil bytes 44 (j2 + 5)
  let ssw_cigar ← parseStr sp3
  let (sp4, j4) ← scanUntil bytes 41 (j3 + 12)
  let ssw_ref_start ← parseU32 sp4
  .ok ((cigar, considered, ref_start, ssw_cigar, ssw_ref_start), j4 + 1)

/-- The five positional writes `chains[n].cigar = ..` … `chains[n].considered = ..`. -/
def applyDetail (c : Chain) : List Nat × Bool × Nat × List Nat × Nat → Chain
  | (cigar, considered, ref_start, ssw_cigar, ssw_ref_start) =>
    { c with cigar := cigar, ref_start := ref_start, ssw_cigar := ssw_cigar,
             ssw_ref_start := ssw_ref_start, considered := considered }

/-- The loop of `fn parse_cigars`, with its counter `n`: attach the n-th
detail entry to `chains[n]` until `]`.  When `n` is out of range the
positional write `chains[n].cigar = …` panics (`chainIndexOutOfRange`);
there is no explicit length check in the source. -/
def parse_cigars_loop (bytes : List Nat) (n : Nat) (chains : List Chain) (i : Nat) :
    Nat → Except Panic (List Chain × Nat)
  | 0 => .error .fuelOut
  | fuel + 1 => do
    let b ← getB bytes i
    if b = 93 then
      .ok (chains, i)
    else do
      let (fields, i') ← parse_cigar_entry bytes i
      if h : n < chains.length then
        parse_cigars_loop bytes (n + 1) (chains.set n (applyDetail (chains.get ⟨n, h⟩) fields)) i' fuel
      else .error .chainIndexOutOfRange

/-- Model of `fn parse_cigars` (the loop entered with `n = 0`). -/
def parse_cigars (bytes : List Nat) (i : Nat) (chains : List Chain) (fuel : Nat) :
    Except Panic (List Chain × Nat) :=
  parse_cigars_loop bytes 0 chains i fuel

/-- Model of `fn parse_reads`: one read record, starting at its marker.
`ok (none, i)` models the `return None` for a read with zero chains. -/
def parse_reads (bytes : List Nat) (i : Nat) (mapping_only : Bool) (fuel : Nat) :
    Except Panic (Option Read × Nat) := do
  let (sp1, j1) ← scanUntil bytes 10 (i + 7)
  let name ← parseStr sp1
  let (sp2, j2) ← scanUntil bytes 44 (j1 + 3)
  let read_len ← parseU32 sp2
  let (sp3, j3) ← scanUntil bytes 10 (j2 + 3)
  let k ← parseU32 sp3
  let (fwd_anchors, j4) ← parse_anchors bytes (j3 + 29) fuel
  let (rev_anchors, j5) ← parse_anchors bytes (j4 + 30) fuel
  let (chains, j6) ← parse_chains bytes (j5 + 9) fuel
  let j7 := j6 + 2
  if chains.isEmpty then
    .ok (none, j7)
  else if mapping_only then
    let chains' := chains.mapIdx (fun idx c => { c with considered := idx == 0 })
    .ok (some { name := name, read_len := read_len, k := k,
                fwd_anchors := fwd_anchors, rev_anchors := rev_anchors,
                chains := chains' }, j7)
  else do
    let (chains2, j8) ← parse_cigars bytes (j7 + 8) chains fuel
    .ok (some { name := name, read_len := read_len, k := k,
                fwd_anchors := fwd_anchors, rev_anchors := rev_anchors,
                chains := chains2 }, j8)

/-- The literal marker `b"Query: "`. -/
def queryMarker : List Nat := [81, 117, 101, 114, 121, 58, 32]

/-- The scanning loop of `fn parse_file`: look for the `Query: ` marker,
decode a read there, keep it when `Some`, and break once the optional cap
is reached (checked only after pushing). -/
def parse_file_loop (bytes : List Nat) (n : Option Nat) (mapping_only : Bool) :
    Nat → List Read → Nat → Except Panic (List Read)
  | _, _, 0 => .error .fuelOut
  | i, reads, fuel + 1 =>
    if i + 7 < bytes.length then
      if (bytes.drop i).take 7 = queryMarker then
        match parse_reads bytes i mapping_only (bytes.length + 1) with
        | .error e => .error e
        | .ok (some read, i') =>
          let reads' := reads ++ [read]
          match n with
          | some max =>
            if max ≤ reads'.length then .ok reads'
            else parse_file_loop bytes n mapping_only i' reads' fuel
          | none => parse_file_loop bytes n mapping_only i' reads' fuel
        | .ok (none, i') => parse_file_loop bytes n mapping_only i' reads fuel
      else parse_file_loop bytes n mapping_only (i + 1) reads fuel
    else .ok reads

/-- Model of `fn parse_file`. -/
def parse_file (bytes : List Nat) (n : Option Nat) (mapping_only : Bool) :
    Except Panic (List Read) :=
  parse_file_loop bytes n mapping_only 0 [] (bytes.length + 1)

/-- Model of Rust `char::is_ascii_alphanumeric`. -/
def is_ascii_alphanumeric (c : Char) : Bool :=
  ('a' ≤ c && c ≤ 'z') || ('A' ≤ c && c ≤ 'Z') || ('0' ≤ c && c ≤ '9')

/-- Model of `fn sanitize_filename`: keep characters in the class, replace all else with an underscore. -/
def sanitize_filename (name : String) : String :=
  String.mk (name.data.map (fun c =>
    if is_ascii_alphanumeric c || c = '-' || c = '_' then c else '_'))

/-- Spec-side character class `[A-Za-z0-9_-]`, written from the spec's
words for the refinement comparison in the C8 theorem. -/
def specAllowedChar (c : Char) : Bool :=
  ('A' ≤ c && c ≤ 'Z') || ('a' ≤ c && c ≤ 'z') || ('0' ≤ c && c ≤ '9') ||
    c = '_' || c = '-'

/-- Spec-side sanitization: replace every character outside `[A-Za-z0-9_-]`
with `'_'`, keep all others. -/
def spec_sanitize (name : String) : String :=
  String.mk (name.data.map (fun c => if specAllowedChar c then c else '_'))

/-- Model of `num_str.parse::<u32>()` on the collected run-length characters. -/
def charsU32? (s : List Char) : Option Nat :=
  let digits := match s with
    | '+' :: r => r
    | _ => s
  if digits ≠ [] ∧ digits.all Char.isDigit then
    let v := digits.foldl (fun a c => a * 10 + (c.toNat - 48)) 0
    if v < 2 ^ 32 then some v else none
  else none

/-- Model of `num_str.parse::<u32>().unwrap_or(0)`. -/
def countOf (num_str : List Char) : Nat := (charsU32? num_str).getD 0

/-- The loop of `fn parse_cigar_to_path`: `num_str` is the digit
accumulator; when a non-digit is reached the run is applied.  Additions are
`u32` and wrap modulo `2^32`.  Trailing digits with no operation code are
dropped (the source `break`s when the digits run to the end). -/
def pathAux (num_str : List Char) (cs : List Char) (ref_pos query_pos : Nat) :
    List (Nat × Nat) :=
  match cs with
  | [] => []
  | c :: rest =>
    if c.isDigit then pathAux (num_str ++ [c]) rest ref_pos query_pos
    else
      let count := countOf num_str
      if c = 'M' ∨ c = '=' ∨ c = 'X' then
        let r := (ref_pos + count) % 2 ^ 32
        let q := (query_pos + count) % 2 ^ 32
        (r, q) :: pathAux [] rest r q
      else if c = 'I' then
        let q := (query_pos + count) % 2 ^ 32
        (ref_pos, q) :: pathAux [] rest ref_pos q
      else if c = 'D' then
        let r := (ref_pos + count) % 2 ^ 32
        (r, query_pos) :: pathAux [] rest r query_pos
      else if c = 'S' then
        let q := (query_pos + count) % 2 ^ 32
        (ref_pos, q) :: pathAux [] rest ref_pos q
      else if c = 'N' then
        let r := (ref_pos + count) % 2 ^ 32
        (r, query_pos) :: pathAux [] rest r query_pos
      else pathAux [] rest ref_pos query_pos

/-- Model of `fn parse_cigar_to_path`. -/
def parse_cigar_to_path (cigar : String) (ref_start : Nat) : List (Nat × Nat) :=
  (ref_start, 0) :: pathAux [] cigar.data ref_start 0

/-- Sum of all run lengths of a CIGAR text (including those of unrecognized
operation codes): an upper bound on the total advance of either axis, used
to express "no u32 overflow occurs". -/
def sumCounts (num_str : List Char) (cs : List Char) : Nat :=
  match cs with
  | [] => 0
  | c :: rest =>
    if c.isDigit then sumCounts (num_str ++ [c]) rest
    else countOf num_str + sumCounts [] rest

/-- The plot-window computation of `fn plot_chain` (lines 400–414):
`mapping_only` is the simple mode; the other branch is the dual-alignment
mode using the chain's secondary (`ssw`) reference start.  Rust
`saturating_sub` is `Nat` truncated subtraction; the `u32` additions wrap. -/
def plot_window (mapping_only : Bool) (rspan : Nat × Nat) (ssw_ref_start read_len : Nat) :
    Nat × Nat :=
  let ref_start := rspan.1
  let ref_end := rspan.2
  let padding := read_len / 10
  if mapping_only then
    (ref_start - padding, (ref_end + padding) % 2 ^ 32)
  else
    let min_ref_start := min ref_start ssw_ref_start
    let max_ref_start := max ref_start ssw_ref_start
    (min_ref_start - padding, (max_ref_start + padding + read_len) % 2 ^ 32)

/-- The strand-appropriate background anchor pool of `fn plot_chain`. -/
def anchors_to_plot (read : Read) (chain : Chain) : List Anchor :=
  if chain.is_revcomp then read.rev_anchors else read.fwd_anchors

/-- The visibility filter of `fn plot_chain` (lines 448–453): keep anchors
with `ref_start >= ref_plot_start && ref_start + k <= ref_plot_end`
(the addition being a `u32` addition). -/
def filtered_anchors (read : Read) (chain : Chain) (ref_plot_start ref_plot_end : Nat) :
    List Anchor :=
  (anchors_to_plot read chain).filter (fun anchor =>
    decide (ref_plot_start ≤ anchor.ref_start) &&
      decide ((anchor.ref_start + read.k) % 2 ^ 32 ≤ ref_plot_end))

/-- A concrete trace buffer holding exactly one well-formed read record
(`Query: r1`, read length 100, k 15, one forward anchor `{1,2}`, no
reverse anchors, one chain), laid out byte-for-byte as `parse_reads`
walks it in mapping-only mode. -/
def cexBuf : List Nat :=
  [81, 117, 101, 114, 121, 58, 32, 114, 49, 10, 76, 58, 49, 48, 48, 44, 32, 107,
   49, 53, 10, 97, 97, 97, 97, 97, 97, 97, 97, 97, 97, 97, 97, 97, 97, 97, 97,
   97, 97, 97, 97, 97, 97, 97, 97, 97, 97, 97, 97, 123, 49, 44, 50, 125, 93, 98,
   98, 98, 98, 98, 98, 98, 98, 98, 98, 98, 98, 98, 98, 98, 98, 98, 98, 98, 98,
   98, 98, 98, 98, 98, 98, 98, 98, 98, 93, 99, 99, 99, 99, 99, 99, 99, 99, 100,
   100, 100, 100, 100, 100, 100, 100, 55, 44, 101, 101, 101, 101, 101, 101, 53,
   46, 53, 44, 102, 102, 102, 102, 102, 102, 102, 102, 102, 102, 102, 102, 49,
   48, 44, 103, 103, 103, 103, 103, 103, 103, 103, 103, 103, 57, 48, 44, 104,
   104, 104, 104, 104, 104, 104, 104, 104, 104, 49, 48, 48, 44, 105, 105, 105,
   105, 105, 105, 105, 105, 50, 48, 48, 44, 106, 106, 106, 106, 106, 106, 106,
   106, 106, 106, 106, 102, 97, 108, 115, 101, 44, 107, 107, 107, 107, 107, 107,
   107, 107, 107, 93, 108, 93, 109]

/-- The read that `parse_file` decodes from `cexBuf` in mapping-only mode. -/
def cexRead : Read :=
  { name := [114, 49], read_len := 100, k := 15,
    fwd_anchors := [⟨1, 2⟩], rev_anchors := [],
    chains := [{ ref_id := 7, score := [53, 46, 53], qspan := (10, 90),
                 rspan := (100, 200), is_revcomp := false, anchors := [],
                 cigar := [], ref_start := 0, considered := true,
                 ssw_cigar := [], ssw_ref_start := 0 }] }

/-- A concrete trace buffer holding one read record whose chain list is
empty (`]` immediately): the read is decoded but dropped. -/
def empBuf : List Nat :=
  [81, 117, 101, 114, 121, 58, 32, 114, 50, 10, 76, 58, 49, 48, 48, 44, 32, 107,
   49, 53, 10, 97, 97, 97, 97, 97, 97, 97, 97, 97, 97, 97, 97, 97, 97, 97, 97,
   97, 97, 97, 97, 97, 97, 97, 97, 97, 97, 97, 97, 93, 98, 98, 98, 98, 98, 98,
   98, 98, 98, 98, 98, 98, 98, 98, 98, 98, 98, 98, 98, 98, 98, 98, 98, 98, 98,
   98, 98, 98, 98, 93, 99, 99, 99, 99, 99, 99, 99, 99, 93, 109]

/-- A concrete chain-detail list fragment holding exactly one entry
(cigar `5M`, considered `1`, ref start 7, ssw cigar `3D`, ssw ref start 9),
laid out byte-for-byte as `parse_cigars` walks it. -/
def c1Buf : List Nat :=
  [40, 53, 77, 44, 110, 110, 110, 110, 110, 110, 110, 110, 110, 110, 110, 110,
   110, 110, 110, 49, 111, 111, 111, 111, 111, 111, 111, 111, 55, 44, 112, 112,
   112, 112, 51, 68, 44, 113, 113, 113, 113, 113, 113, 113, 113, 113, 113, 113,
   57, 41]

/-- A read used to evaluate the visibility filter on the spec's example:
`k = 10`, forward anchors at `ref_start` 204 and 190. -/
def exRead7 : Read :=
  { name := [], read_len := 50, k := 10,
    fwd_anchors := [⟨204, 0⟩, ⟨190, 3⟩], rev_anchors := [], chains := [] }

/-- A forward-strand chain for the visibility-filter examples. -/
def exChain7 : Chain :=
  { ref_id := 0, score := [], qspan := (0, 0), rspan := (100, 200),
    is_revcomp := false, anchors := [], cigar := [], ref_start := 0,
    considered := false, ssw_cigar := [], ssw_ref_start := 0 }

/-- A read whose `k` makes `ref_start + k` wrap around `2^32` in the
visibility filter. -/
def ovRead7 : Read :=
  { name := [], read_len := 0, k := 4294967295,
    fwd_anchors := [⟨2, 0⟩], rev_anchors := [], chains := [] }

/-! ### Helper lemmas about the decoder -/

/-- Inversion of a successful `Except` bind. -/
theorem exBind_ok {ε α β : Type} {x : Except ε α} {f : α → Except ε β} {v : β}
    (h : x >>= f = Except.ok v) : ∃ a, x = Except.ok a ∧ f a = Except.ok v := by
  cases x with
  | error e =>
    exact absurd h (by simp [Bind.bind, Except.bind])
  | ok a =>
    refine ⟨a, rfl, ?_⟩
    simpa [Bind.bind, Except.bind] using h


/-- The detail pass only overwrites entries in place: the chain count is preserved. -/
theorem parse_cigars_loop_length (fuel : Nat) :
    ∀ (bytes : List Nat) (n : Nat) (chains : List Chain) (i : Nat)
      (res : List Chain × Nat),
      parse_cigars_loop bytes n chains i fuel = .ok res →
      res.1.length = chains.length := by
  induction fuel with
  | zero => intro bytes n chains i res h; exact absurd h (by simp [parse_cigars_loop])
  | succ fuel ih =>
    intro bytes n chains i res h
    unfold parse_cigars_loop at h
    obtain ⟨b, h1, h⟩ := exBind_ok h
    by_cases hb : b = 93
    · simp only [hb, if_pos rfl] at h
      cases h
      rfl
    · simp only [if_neg hb] at h
      obtain ⟨⟨fields, i'⟩, h2, h⟩ := exBind_ok h
      split at h
      · next hlt =>
        have := ih bytes (n + 1) _ i' res h
        simpa [List.length_set] using this
      · exact absurd h (by simp)

/-- A read returned as `some` by the read decoder has a nonempty chain list. -/
theorem parse_reads_some_nonempty (bytes : List Nat) (i : Nat) (mo : Bool) (fuel : Nat)
    (r : Read) (j : Nat) (h : parse_reads bytes i mo fuel = .ok (some r, j)) :
    r.chains ≠ [] := by
  unfold parse_reads at h
  obtain ⟨⟨sp1, j1⟩, h1, h⟩ := exBind_ok h
  obtain ⟨name, h2, h⟩ := exBind_ok h
  obtain ⟨⟨sp2, j2⟩, h3, h⟩ := exBind_ok h
  obtain ⟨read_len, h4, h⟩ := exBind_ok h
  obtain ⟨⟨sp3, j3⟩, h5, h⟩ := exBind_ok h
  obtain ⟨k, h6, h⟩ := exBind_ok h
  obtain ⟨⟨fwd, j4⟩, h7, h⟩ := exBind_ok h
  obtain ⟨⟨rev, j5⟩, h8, h⟩ := exBind_ok h
  obtain ⟨⟨chains, j6⟩, h9, h⟩ := exBind_ok h
  by_cases hc : chains.isEmpty
  · simp only [hc, if_pos rfl] at h
    exact absurd h (by simp)
  · simp only [hc, if_neg] at h
    have hne : chains ≠ [] := by simpa [List.isEmpty_iff] using hc
    by_cases hmo : mo
    · simp only [hmo, if_pos rfl, Bool.false_eq_true, if_neg] at h
      cases h
      simpa [List.mapIdx_eq_nil_iff] using hne
    · simp only [hmo, if_neg] at h
      obtain ⟨⟨chains2, j8⟩, h10, h⟩ := exBind_ok h
      cases h
      have hlen := parse_cigars_loop_length fuel bytes 0 chains _ (chains2, j8) h10
      intro hnil
      dsimp only at hnil hlen
      rw [hnil] at hlen
      simp only [List.length_nil] at hlen
      exact hne (List.length_eq_zero.mp hlen.symm)


/-- Loop invariant of the trace scan under a cap `m`: entering with fewer than
`max m 1` accumulated reads, the final count is at most `max m 1`. -/
theorem parse_file_loop_length_le (bytes : List Nat) (m : Nat) (mo : Bool) :
    ∀ (fuel i : Nat) (reads out : List Read),
      reads.length < max m 1 →
      parse_file_loop bytes (some m) mo i reads fuel = .ok out →
      out.length ≤ max m 1 := by
  intro fuel
  induction fuel with
  | zero => intro i reads out hlt h; exact absurd h (by simp [parse_file_loop])
  | succ fuel ih =>
    intro i reads out hlt h
    unfold parse_file_loop at h
    split at h
    · split at h
      · split at h
        · exact absurd h (by simp)
        · rename_i read i' heq
          dsimp only at h
          split at h
          · rename_i hcap
            cases h
            simpa using hlt
          · rename_i hcap
            have hlt' : (reads ++ [read]).length < max m 1 := by
              have h1 : (reads ++ [read]).length < m := Nat.lt_of_not_le hcap
              exact Nat.lt_of_lt_of_le h1 (Nat.le_max_left m 1)
            exact ih i' (reads ++ [read]) out hlt' h
        · rename_i i' heq
          exact ih i' reads out hlt h
      · exact ih (i + 1) reads out hlt h
    · cases h
      exact Nat.le_of_lt hlt

/-- Loop invariant of the trace scan: accepted reads all have nonempty chains. -/
theorem parse_file_loop_nonempty (bytes : List Nat) (n : Option Nat) (mo : Bool) :
    ∀ (fuel i : Nat) (reads out : List Read),
      (∀ r ∈ reads, r.chains ≠ []) →
      parse_file_loop bytes n mo i reads fuel = .ok out →
      ∀ r ∈ out, r.chains ≠ [] := by
  intro fuel
  induction fuel with
  | zero => intro i reads out hinv h; exact absurd h (by simp [parse_file_loop])
  | succ fuel ih =>
    intro i reads out hinv h
    unfold parse_file_loop at h
    split at h
    · split at h
      · split at h
        · exact absurd h (by simp)
        · rename_i read i' heq
          have hr : read.chains ≠ [] :=
            parse_reads_some_nonempty bytes i mo (bytes.length + 1) read i' heq
          have hinv' : ∀ r ∈ reads ++ [read], r.chains ≠ [] := by
            intro r hrmem
            rcases List.mem_append.mp hrmem with hmem | hmem
            · exact hinv r hmem
            · rcases List.mem_singleton.mp hmem with rfl
              exact hr
          split at h
          · rename_i mx
            dsimp only at h
            split at h
            · cases h
              exact hinv'
            · exact ih i' (reads ++ [read]) out hinv' h
          · exact ih i' (reads ++ [read]) out hinv' h
        · rename_i i' heq
          exact ih i' reads out hinv h
      · exact ih (i + 1) reads out hinv h
    · cases h
      exact hinv

/-! ### Helper lemmas about CIGAR path reconstruction -/

/-- Digit characters are moved into the run-length accumulator unchanged. -/
theorem pathAux_digits (ds : List Char) :
    ∀ (acc t : List Char) (r q : Nat), (∀ c ∈ ds, c.isDigit) →
      pathAux acc (ds ++ t) r q = pathAux (acc ++ ds) t r q := by
  induction ds with
  | nil => intro acc t r q _; simp
  | cons c ds ih =>
    intro acc t r q hd
    have hc : c.isDigit := hd c (List.mem_cons_self c ds)
    have hds : ∀ x ∈ ds, x.isDigit := fun x hx => hd x (List.mem_cons_of_mem c hx)
    simp only [List.cons_append, pathAux, hc, if_pos, List.append_eq]
    rw [ih (acc ++ [c]) t r q hds]
    simp

/-- Same for the total run-length sum. -/
theorem sumCounts_digits (ds : List Char) :
    ∀ (acc t : List Char), (∀ c ∈ ds, c.isDigit) →
      sumCounts acc (ds ++ t) = sumCounts (acc ++ ds) t := by
  induction ds with
  | nil => intro acc t _; simp
  | cons c ds ih =>
    intro acc t hd
    have hc : c.isDigit := hd c (List.mem_cons_self c ds)
    have hds : ∀ x ∈ ds, x.isDigit := fun x hx => hd x (List.mem_cons_of_mem c hx)
    simp only [List.cons_append, sumCounts, hc, if_pos, List.append_eq]
    rw [ih (acc ++ [c]) t hds]
    simp

/-- Core of the monotonicity argument: starting from `(r, q)` with enough
headroom that no `u32` addition wraps, every vertex the CIGAR walk appends
is coordinate-wise at least the previous one. -/
theorem pathAux_chain (cs : List Char) :
    ∀ (acc : List Char) (r q : Nat),
      r + sumCounts acc cs < 2 ^ 32 → q + sumCounts acc cs < 2 ^ 32 →
      List.Chain' (fun p1 p2 => p1.1 ≤ p2.1 ∧ p1.2 ≤ p2.2) ((r, q) :: pathAux acc cs r q) := by
  induction cs with
  | nil => intro acc r q _ _; simp [pathAux]
  | cons c rest ih =>
    intro acc r q hr hq
    by_cases hd : c.isDigit
    · rw [show pathAux acc (c :: rest) r q = pathAux (acc ++ [c]) rest r q by
        simp [pathAux, hd]]
      have hs : sumCounts acc (c :: rest) = sumCounts (acc ++ [c]) rest := by
        simp [sumCounts, hd]
      rw [hs] at hr hq
      exact ih (acc ++ [c]) r q hr hq
    · have hs : sumCounts acc (c :: rest) = countOf acc + sumCounts [] rest := by
        simp [sumCounts, hd]
      rw [hs] at hr hq
      have hbound : countOf acc + sumCounts [] rest < 2 ^ 32 := by omega
      unfold pathAux
      rw [if_neg (by simp [hd])]
      by_cases h1 : c = 'M' ∨ c = '=' ∨ c = 'X'
      · rw [if_pos h1]
        have hrC : (r + countOf acc) % 2 ^ 32 = r + countOf acc := Nat.mod_eq_of_lt (by omega)
        have hqC : (q + countOf acc) % 2 ^ 32 = q + countOf acc := Nat.mod_eq_of_lt (by omega)
        rw [hrC, hqC]
        exact List.chain'_cons.mpr
          ⟨⟨Nat.le_add_right r _, Nat.le_add_right q _⟩,
           ih [] (r + countOf acc) (q + countOf acc) (by simpa [sumCounts] using by omega)
             (by simpa [sumCounts] using by omega)⟩
      · rw [if_neg h1]
        by_cases h2 : c = 'I'
        · rw [if_pos h2]
          have hqC : (q + countOf acc) % 2 ^ 32 = q + countOf acc := Nat.mod_eq_of_lt (by omega)
          rw [hqC]
          exact List.chain'_cons.mpr
            ⟨⟨Nat.le_refl r, Nat.le_add_right q _⟩,
             ih [] r (q + countOf acc) (by omega) (by omega)⟩
        · rw [if_neg h2]
          by_cases h3 : c = 'D'
          · rw [if_pos h3]
            have hrC : (r + countOf acc) % 2 ^ 32 = r + countOf acc := Nat.mod_eq_of_lt (by omega)
            rw [hrC]
            exact List.chain'_cons.mpr
              ⟨⟨Nat.le_add_right r _, Nat.le_refl q⟩,
               ih [] (r + countOf acc) q (by omega) (by omega)⟩
          · rw [if_neg h3]
            by_cases h4 : c = 'S'
            · rw [if_pos h4]
              have hqC : (q + countOf acc) % 2 ^ 32 = q + countOf acc := Nat.mod_eq_of_lt (by omega)
              rw [hqC]
              exact List.chain'_cons.mpr
                ⟨⟨Nat.le_refl r, Nat.le_add_right q _⟩,
                 ih [] r (q + countOf acc) (by omega) (by omega)⟩
            · rw [if_neg h4]
              by_cases h5 : c = 'N'
              · rw [if_pos h5]
                have hrC : (r + countOf acc) % 2 ^ 32 = r + countOf acc :=
                  Nat.mod_eq_of_lt (by omega)
                rw [hrC]
                exact List.chain'_cons.mpr
                  ⟨⟨Nat.le_add_right r _, Nat.le_refl q⟩,
                   ih [] (r + countOf acc) q (by omega) (by omega)⟩
              · rw [if_neg h5]
                exact ih [] r q (by omega) (by omega)

/-- One recognized `M`/`=`/`X` run: both axes advance by the run length
(no wrap under the stated headroom). -/
theorem pathAux_run_match (ds : List Char) (op : Char) (rest : List Char) (r q : Nat)
    (hds : ∀ c ∈ ds, c.isDigit) (hop : op = 'M' ∨ op = '=' ∨ op = 'X')
    (hr : r + countOf ds < 2 ^ 32) (hq : q + countOf ds < 2 ^ 32) :
    pathAux [] (ds ++ op :: rest) r q =
      (r + countOf ds, q + countOf ds) ::
        pathAux [] rest (r + countOf ds) (q + countOf ds) := by
  have h0 : pathAux [] (ds ++ op :: rest) r q = pathAux ds (op :: rest) r q := by
    simpa using pathAux_digits ds [] (op :: rest) r q hds
  rw [h0]
  rcases hop with rfl | rfl | rfl
  · rw [show pathAux ds ('M' :: rest) r q =
        ((r + countOf ds) % 2 ^ 32, (q + countOf ds) % 2 ^ 32) ::
          pathAux [] rest ((r + countOf ds) % 2 ^ 32) ((q + countOf ds) % 2 ^ 32) from rfl,
      Nat.mod_eq_of_lt hr, Nat.mod_eq_of_lt hq]
  · rw [show pathAux ds ('=' :: rest) r q =
        ((r + countOf ds) % 2 ^ 32, (q + countOf ds) % 2 ^ 32) ::
          pathAux [] rest ((r + countOf ds) % 2 ^ 32) ((q + countOf ds) % 2 ^ 32) from rfl,
      Nat.mod_eq_of_lt hr, Nat.mod_eq_of_lt hq]
  · rw [show pathAux ds ('X' :: rest) r q =
        ((r + countOf ds) % 2 ^ 32, (q + countOf ds) % 2 ^ 32) ::
          pathAux [] rest ((r + countOf ds) % 2 ^ 32) ((q + countOf ds) % 2 ^ 32) from rfl,
      Nat.mod_eq_of_lt hr, Nat.mod_eq_of_lt hq]

/-- One recognized `I`/`S` run: only the query axis advances. -/
theorem pathAux_run_ins (ds : List Char) (op : Char) (rest : List Char) (r q : Nat)
    (hds : ∀ c ∈ ds, c.isDigit) (hop : op = 'I' ∨ op = 'S')
    (hq : q + countOf ds < 2 ^ 32) :
    pathAux [] (ds ++ op :: rest) r q =
      (r, q + countOf ds) :: pathAux [] rest r (q + countOf ds) := by
  have h0 : pathAux [] (ds ++ op :: rest) r q = pathAux ds (op :: rest) r q := by
    simpa using pathAux_digits ds [] (op :: rest) r q hds
  rw [h0]
  rcases hop with rfl | rfl
  · rw [show pathAux ds ('I' :: rest) r q =
        (r, (q + countOf ds) % 2 ^ 32) :: pathAux [] rest r ((q + countOf ds) % 2 ^ 32)
        from rfl, Nat.mod_eq_of_lt hq]
  · rw [show pathAux ds ('S' :: rest) r q =
        (r, (q + countOf ds) % 2 ^ 32) :: pathAux [] rest r ((q + countOf ds) % 2 ^ 32)
        from rfl, Nat.mod_eq_of_lt hq]

/-- One recognized `D`/`N` run: only the reference axis advances. -/
theorem pathAux_run_del (ds : List Char) (op : Char) (rest : List Char) (r q : Nat)
    (hds : ∀ c ∈ ds, c.isDigit) (hop : op = 'D' ∨ op = 'N')
    (hr : r + countOf ds < 2 ^ 32) :
    pathAux [] (ds ++ op :: rest) r q =
      (r + countOf ds, q) :: pathAux [] rest (r + countOf ds) q := by
  have h0 : pathAux [] (ds ++ op :: rest) r q = pathAux ds (op :: rest) r q := by
    simpa using pathAux_digits ds [] (op :: rest) r q hds
  rw [h0]
  rcases hop with rfl | rfl
  · rw [show pathAux ds ('D' :: rest) r q =
        ((r + countOf ds) % 2 ^ 32, q) :: pathAux [] rest ((r + countOf ds) % 2 ^ 32) q
        from rfl, Nat.mod_eq_of_lt hr]
  · rw [show pathAux ds ('N' :: rest) r q =
        ((r + countOf ds) % 2 ^ 32, q) :: pathAux [] rest ((r + countOf ds) % 2 ^ 32) q
        from rfl, Nat.mod_eq_of_lt hr]

/-- An unrecognized operation code: no vertex, no position change. -/
theorem pathAux_run_other (ds : List Char) (op : Char) (rest : List Char) (r q : Nat)
    (hds : ∀ c ∈ ds, c.isDigit) (hnd : op.isDigit = false)
    (hop : op ∉ (['M', '=', 'X', 'I', 'S', 'D', 'N'] : List Char)) :
    pathAux [] (ds ++ op :: rest) r q = pathAux [] rest r q := by
  have h0 : pathAux [] (ds ++ op :: rest) r q = pathAux ds (op :: rest) r q := by
    simpa using pathAux_digits ds [] (op :: rest) r q hds
  simp only [List.mem_cons, List.not_mem_nil, or_false, not_or] at hop
  obtain ⟨hM, hE, hX, hI, hS, hD, hN⟩ := hop
  rw [h0, pathAux.eq_def]
  dsimp only
  rw [if_neg (by simp [hnd]), if_neg (by simp [hM, hE, hX]), if_neg hI, if_neg hD,
    if_neg hS, if_neg hN]

/-- A recognized run with a run length that is missing or fails to parse as
`u32` is a no-op advance that still appends a vertex. -/
theorem pathAux_run_zero (ds : List Char) (op : Char) (rest : List Char) (r q : Nat)
    (hds : ∀ c ∈ ds, c.isDigit) (hzero : countOf ds = 0)
    (hop : op ∈ (['M', '=', 'X', 'I', 'S', 'D', 'N'] : List Char))
    (hr : r < 2 ^ 32) (hq : q < 2 ^ 32) :
    pathAux [] (ds ++ op :: rest) r q = (r, q) :: pathAux [] rest r q := by
  simp only [List.mem_cons, List.not_mem_nil, or_false] at hop
  rcases hop with rfl | rfl | rfl | rfl | rfl | rfl | rfl
  · simpa [hzero] using pathAux_run_match ds 'M' rest r q hds (by simp)
      (by omega) (by omega)
  · simpa [hzero] using pathAux_run_match ds '=' rest r q hds (by simp)
      (by omega) (by omega)
  · simpa [hzero] using pathAux_run_match ds 'X' rest r q hds (by simp)
      (by omega) (by omega)
  · simpa [hzero] using pathAux_run_ins ds 'I' rest r q hds (by simp) (by omega)
  · simpa [hzero] using pathAux_run_ins ds 'S' rest r q hds (by simp) (by omega)
  · simpa [hzero] using pathAux_run_del ds 'D' rest r q hds (by simp) (by omega)
  · simpa [hzero] using pathAux_run_del ds 'N' rest r q hds (by simp) (by omega)

/-- The source's keep-condition coincides pointwise with the spec's
character class `[A-Za-z0-9_-]`. -/
theorem sanitize_bool_eq (c : Char) :
    (is_ascii_alphanumeric c || decide (c = '-') || decide (c = '_')) =
      specAllowedChar c := by
  simp only [is_ascii_alphanumeric, specAllowedChar]
  cases h1 : decide ('a' ≤ c) <;> cases h2 : decide (c ≤ 'z') <;>
    cases h3 : decide ('A' ≤ c) <;> cases h4 : decide (c ≤ 'Z') <;>
    cases h5 : decide ('0' ≤ c) <;> cases h6 : decide (c ≤ '9') <;>
    cases h7 : decide (c = '_') <;> cases h8 : decide (c = '-') <;> rfl

/-- Claim C8: (confirmed).  For every read name, sanitization replaces every
character outside `[A-Za-z0-9_-]` with `'_'` and keeps all other characters
unchanged (stated as agreement with the spec-side `spec_sanitize`); in
particular `"read/1:a b"` sanitizes to `"read_1_a_b"`. -/
theorem c8_sanitize_matches_spec :
    (∀ name : String, sanitize_filename name = spec_sanitize name)
    ∧ sanitize_filename "read/1:a b" = "read_1_a_b" := by
  refine ⟨?_, by decide⟩
  intro name
  unfold sanitize_filename spec_sanitize
  congr 1
  refine List.map_congr_left (fun c _ => ?_)
  rw [sanitize_bool_eq c]

/-- Claim C10: (confirmed).  Sanitization maps each character to exactly one
character (the character count is preserved) and every output character
lies in `[A-Za-z0-9_-]`. -/
theorem c10_sanitize_length_and_class :
    (∀ name : String, (sanitize_filename name).length = name.length)
    ∧ (∀ (name : String) (c : Char), c ∈ (sanitize_filename name).data →
        specAllowedChar c = true) := by
  constructor
  · intro name
    simp only [sanitize_filename, String.length_mk, List.length_map]
    rfl
  · intro name c hc
    simp only [sanitize_filename] at hc
    obtain ⟨x, hx, rfl⟩ := List.mem_map.mp hc
    by_cases hcond : (is_ascii_alphanumeric x || decide (x = '-') || decide (x = '_')) = true
    · rw [if_pos hcond, ← sanitize_bool_eq x]
      exact hcond
    · rw [if_neg hcond]
      rfl

/-- Witness for C10 at the concrete name `"a/b"` and output character `'a'`. -/
theorem c10_witness_shape :
    (sanitize_filename "a/b").length = ("a/b" : String).length ∧
      specAllowedChar 'a' = true :=
  ⟨c10_sanitize_length_and_class.1 "a/b",
   c10_sanitize_length_and_class.2 "a/b" 'a' (by decide)⟩

/-- Claim C9: (confirmed).  Assuming no `u32` overflow (the start offset plus
the total run length stays below `2^32`), the reconstructed path is
coordinate-wise monotone: each vertex dominates its predecessor on both the
reference and the query axis. -/
theorem c9_path_monotone (cigar : String) (ref_start : Nat)
    (h : ref_start + sumCounts [] cigar.data < 2 ^ 32) :
    List.Chain' (fun p1 p2 => p1.1 ≤ p2.1 ∧ p1.2 ≤ p2.2)
      (parse_cigar_to_path cigar ref_start) := by
  unfold parse_cigar_to_path
  exact pathAux_chain cigar.data [] ref_start 0 h (by omega)

/-- Witness for C9 on the CIGAR `"3M2I2D"` with start offset 10. -/
theorem c9_witness_monotone :
    10 + sumCounts [] "3M2I2D".data < 2 ^ 32 ∧
    List.Chain' (fun p1 p2 => p1.1 ≤ p2.1 ∧ p1.2 ≤ p2.2)
      (parse_cigar_to_path "3M2I2D" 10) :=
  ⟨by decide, c9_path_monotone "3M2I2D" 10 (by decide)⟩

/-- Claim C4: (amended).  Path reconstruction begins at `(ref_start, 0)`, and
per run advances both axes for `M`/`=`/`X`, the query axis for `I`/`S` and
the reference axis for `D`/`N`, appending one vertex per recognized run —
with the advances being `u32` additions, i.e. equal to `+count` whenever
they do not wrap past `2^32`; the spec's two examples hold. -/
theorem c4_path_reconstruction :
    (∀ (cigar : String) (ref_start : Nat),
        (parse_cigar_to_path cigar ref_start).head? = some (ref_start, 0))
    ∧ parse_cigar_to_path "3M2I2D" 10 = [(10, 0), (13, 3), (13, 5), (15, 5)]
    ∧ parse_cigar_to_path "" 5 = [(5, 0)]
    ∧ (∀ (ds : List Char) (op : Char) (rest : List Char) (r q : Nat),
        (∀ c ∈ ds, c.isDigit) → (op = 'M' ∨ op = '=' ∨ op = 'X') →
        r + countOf ds < 2 ^ 32 → q + countOf ds < 2 ^ 32 →
        pathAux [] (ds ++ op :: rest) r q =
          (r + countOf ds, q + countOf ds) ::
            pathAux [] rest (r + countOf ds) (q + countOf ds))
    ∧ (∀ (ds : List Char) (op : Char) (rest : List Char) (r q : Nat),
        (∀ c ∈ ds, c.isDigit) → (op = 'I' ∨ op = 'S') →
        q + countOf ds < 2 ^ 32 →
        pathAux [] (ds ++ op :: rest) r q =
          (r, q + countOf ds) :: pathAux [] rest r (q + countOf ds))
    ∧ (∀ (ds : List Char) (op : Char) (rest : List Char) (r q : Nat),
        (∀ c ∈ ds, c.isDigit) → (op = 'D' ∨ op = 'N') →
        r + countOf ds < 2 ^ 32 →
        pathAux [] (ds ++ op :: rest) r q =
          (r + countOf ds, q) :: pathAux [] rest (r + countOf ds) q) :=
  ⟨fun _ _ => rfl, by decide, by decide,
   pathAux_run_match, pathAux_run_ins, pathAux_run_del⟩

/-- Claim C4: counterexample: the claim's unconditional "advances by `+count`"
fails once a `u32` addition wraps — on `"4294967295M4294967295M"` from
offset 0 the third vertex retreats below the second on both axes. -/
theorem c4_cex_wrapping_retreat :
    parse_cigar_to_path "4294967295M4294967295M" 0 =
      [(0, 0), (4294967295, 4294967295), (4294967294, 4294967294)] ∧
    4294967294 < 4294967295 := ⟨by decide, by decide⟩

/-- Witness for C4 applying the `M`-run clause at the run `3M`. -/
theorem c4_witness_run :
    pathAux [] (['3'] ++ 'M' :: []) 0 0 =
      (0 + countOf ['3'], 0 + countOf ['3']) ::
        pathAux [] [] (0 + countOf ['3']) (0 + countOf ['3']) :=
  c4_path_reconstruction.2.2.2.1 ['3'] 'M' [] 0 0 (by decide) (Or.inl rfl)
    (by decide) (by decide)

/-- Claim C5: (confirmed).  Path reconstruction is total: a run with an
unrecognized operation code changes nothing and appends no vertex, and a
missing or unparsable run length is treated as `0` (a no-op advance that
still appends a vertex for a recognized code) — never a fatal error. -/
theorem c5_lenient_cigar_handling :
    (∀ (cigar : String) (ref_start : Nat),
        1 ≤ (parse_cigar_to_path cigar ref_start).length)
    ∧ countOf [] = 0
    ∧ countOf "4294967296".data = 0
    ∧ (∀ (ds : List Char) (op : Char) (rest : List Char) (r q : Nat),
        (∀ c ∈ ds, c.isDigit) → op.isDigit = false →
        op ∉ (['M', '=', 'X', 'I', 'S', 'D', 'N'] : List Char) →
        pathAux [] (ds ++ op :: rest) r q = pathAux [] rest r q)
    ∧ (∀ (ds : List Char) (op : Char) (rest : List Char) (r q : Nat),
        (∀ c ∈ ds, c.isDigit) → countOf ds = 0 →
        op ∈ (['M', '=', 'X', 'I', 'S', 'D', 'N'] : List Char) →
        r < 2 ^ 32 → q < 2 ^ 32 →
        pathAux [] (ds ++ op :: rest) r q = (r, q) :: pathAux [] rest r q)
    ∧ parse_cigar_to_path "5Q3M" 0 = [(0, 0), (3, 3)]
    ∧ parse_cigar_to_path "4294967296M" 7 = [(7, 0), (7, 0)] :=
  ⟨fun _ _ => Nat.succ_le_succ (Nat.zero_le _), rfl, by decide,
   pathAux_run_other, pathAux_run_zero, by decide, by decide⟩

/-- Witness for C5: a bare `M` with no run length is a no-op advance. -/
theorem c5_witness_zero_run :
    pathAux [] ([] ++ 'M' :: []) 4 9 = (4, 9) :: pathAux [] [] 4 9 :=
  c5_lenient_cigar_handling.2.2.2.2.1 [] 'M' [] 4 9 (by simp) rfl (by decide)
    (by decide) (by decide)

/-- Claim C6: (amended).  In simple (mapping-only) mode the window is
`[rspan0 - pad, rspan1 + pad]` with `pad = read_len / 10`, where the lower
bound is truncated (saturating) subtraction — equal to `max (rspan0 - pad) 0`
over the integers — and the upper bound is a `u32` addition, equal to
`rspan1 + pad` whenever that sum does not wrap past `2^32`; the spec's two
examples hold. -/
theorem c6_simple_window :
    (∀ (rspan : Nat × Nat) (ssw_ref_start read_len : Nat),
        rspan.2 + read_len / 10 < 2 ^ 32 →
        plot_window true rspan ssw_ref_start read_len =
          (rspan.1 - read_len / 10, rspan.2 + read_len / 10))
    ∧ (∀ (rspan : Nat × Nat) (ssw_ref_start read_len : Nat),
        ((plot_window true rspan ssw_ref_start read_len).1 : Int) =
          max ((rspan.1 : Int) - ((read_len / 10 : Nat) : Int)) 0)
    ∧ plot_window true (100, 200) 0 50 = (95, 205)
    ∧ plot_window true (0, 10) 0 50 = (0, 15) := by
  refine ⟨?_, ?_, by decide, by decide⟩
  · intro rspan ssw read_len h
    rw [show plot_window true rspan ssw read_len =
        (rspan.1 - read_len / 10, (rspan.2 + read_len / 10) % 2 ^ 32) from rfl,
      Nat.mod_eq_of_lt h]
  · intro rspan ssw read_len
    rw [show (plot_window true rspan ssw read_len).1 = rspan.1 - read_len / 10 from rfl]
    omega

/-- Claim C6: counterexample: when `rspan1 + pad` overflows `u32`, the window's
upper bound wraps instead of equalling `rspan1 + pad`. -/
theorem c6_cex_window_overflow :
    plot_window true (0, 4294967295) 0 4294967295 = (0, 429496728) ∧
    429496728 ≠ 4294967295 + 4294967295 / 10 := ⟨by decide, by decide⟩

/-- Witness for C6 at the spec's example `rspan = [100,200]`, `read_len = 50`. -/
theorem c6_witness_window :
    plot_window true (100, 200) 0 50 = (100 - 50 / 10, 200 + 50 / 10) :=
  c6_simple_window.1 (100, 200) 0 50 (by decide)

/-- Claim C7: (amended).  The visibility filter draws from the
strand-appropriate pool (`rev_anchors` iff the chain is reverse-complement)
and keeps exactly the anchors with `w0 ≤ ref_start` and
`ref_start + k ≤ w1`, the footprint sum being a `u32` addition — the
characterization holds whenever no pool anchor's `ref_start + k` wraps past
`2^32`; partially overlapping anchors are excluded, as in the spec's
examples. -/
theorem c7_visibility_filter :
    (∀ (read : Read) (chain : Chain) (w0 w1 : Nat),
        (∀ a ∈ anchors_to_plot read chain, a.ref_start + read.k < 2 ^ 32) →
        ∀ a : Anchor, a ∈ filtered_anchors read chain w0 w1 ↔
          a ∈ anchors_to_plot read chain ∧ w0 ≤ a.ref_start ∧
            a.ref_start + read.k ≤ w1)
    ∧ (∀ (read : Read) (chain : Chain), chain.is_revcomp = true →
        anchors_to_plot read chain = read.rev_anchors)
    ∧ (∀ (read : Read) (chain : Chain), chain.is_revcomp = false →
        anchors_to_plot read chain = read.fwd_anchors)
    ∧ filtered_anchors exRead7 exChain7 95 205 = [⟨190, 3⟩] := by
  refine ⟨?_, ?_, ?_, by decide⟩
  · intro read chain w0 w1 hov a
    simp only [filtered_anchors, List.mem_filter, Bool.and_eq_true, decide_eq_true_eq]
    constructor
    · rintro ⟨hmem, h1, h2⟩
      exact ⟨hmem, h1, by rwa [Nat.mod_eq_of_lt (hov a hmem)] at h2⟩
    · rintro ⟨hmem, h1, h2⟩
      exact ⟨hmem, h1, by rw [Nat.mod_eq_of_lt (hov a hmem)]; exact h2⟩
  · intro read chain h
    simp [anchors_to_plot, h]
  · intro read chain h
    simp [anchors_to_plot, h]

/-- Claim C7: counterexample: with `k = 2^32 - 1` the footprint sum wraps, so
an anchor whose true footprint end exceeds the window is nevertheless kept. -/
theorem c7_cex_footprint_overflow :
    filtered_anchors ovRead7 exChain7 0 100 = [⟨2, 0⟩] ∧
    ¬(2 + 4294967295 ≤ 100) := ⟨by decide, by decide⟩

/-- Witness for C7: membership characterization at the spec's included
anchor `ref_start = 190`, `k = 10`, window `[95, 205]`. -/
theorem c7_witness_filter :
    (⟨190, 3⟩ : Anchor) ∈ filtered_anchors exRead7 exChain7 95 205 ↔
      (⟨190, 3⟩ : Anchor) ∈ anchors_to_plot exRead7 exChain7 ∧
        95 ≤ (⟨190, 3⟩ : Anchor).ref_start ∧
        (⟨190, 3⟩ : Anchor).ref_start + exRead7.k ≤ 205 :=
  c7_visibility_filter.1 exRead7 exChain7 95 205 (by decide) ⟨190, 3⟩

/-- Binding `Except.ok` into a continuation reduces to the continuation. -/
theorem ok_bind {ε α β : Type} (a : α) (f : α → Except ε β) :
    (Except.ok a : Except ε α) >>= f = f a := rfl

/-- Claim C1: (amended).  The mismatch is not detected explicitly: whenever a
further chain-detail entry is present and scans successfully but the
attachment counter has reached the end of the chain list, the positional
write `chains[n].cigar = …` performs out-of-range indexing and decoding
aborts with that index panic (no descriptive length-mismatch error exists
in the code); a detail list shorter than the chain list is not flagged
either. -/
theorem c1_detail_overrun_panics
    (bytes : List Nat) (n : Nat) (chains : List Chain) (i fuel : Nat) (b : Nat)
    (fields : List Nat × Bool × Nat × List Nat × Nat) (i' : Nat)
    (hb : getB bytes i = .ok b) (hne : ¬b = 93)
    (hentry : parse_cigar_entry bytes i = .ok (fields, i'))
    (hlen : chains.length ≤ n) :
    parse_cigars_loop bytes n chains i (fuel + 1) =
      .error Panic.chainIndexOutOfRange := by
  unfold parse_cigars_loop
  rw [hb, ok_bind, if_neg hne, hentry, ok_bind]
  exact dif_neg (Nat.not_lt.mpr hlen)

set_option maxRecDepth 100000 in
/-- Claim C1: counterexample: a chain-detail list holding one entry against an
empty chain list makes full-mode decoding hit the out-of-range positional
write — it does not produce an explicit mismatch error. -/
theorem c1_cex_positional_indexing :
    parse_cigars c1Buf 0 [] 51 = .error Panic.chainIndexOutOfRange := rfl

set_option maxRecDepth 100000 in
/-- Witness for C1 on the concrete detail fragment `c1Buf`. -/
theorem c1_witness_overrun :
    parse_cigars_loop c1Buf 3 [] 0 41 = .error Panic.chainIndexOutOfRange :=
  c1_detail_overrun_panics c1Buf 3 [] 0 40 40 ([53, 77], true, 7, [51, 68], 9) 50
    rfl (by decide) rfl (by decide)

/-- Claim C2: (amended).  With a requested cap `m` the scan returns at most
`max m 1` reads: a read is pushed before the cap is checked, so a cap of
`0` still admits one read; for every `m ≥ 1` the returned count never
exceeds `m`. -/
theorem c2_cap_bound (bytes : List Nat) (m : Nat) (mo : Bool) (out : List Read)
    (h : parse_file bytes (some m) mo = .ok out) : out.length ≤ max m 1 :=
  parse_file_loop_length_le bytes m mo (bytes.length + 1) 0 [] out
    (by simp [Nat.lt_of_lt_of_le Nat.one_pos (Nat.le_max_right m 1)]) h

set_option maxRecDepth 1000000 in
/-- Claim C2: counterexample: on a buffer holding one well-formed read, a
requested cap of `0` still yields one read — the count exceeds the cap. -/
theorem c2_cex_cap_zero_exceeded :
    parse_file cexBuf (some 0) true = .ok [cexRead] ∧ ¬([cexRead].length ≤ 0) :=
  ⟨rfl, by decide⟩

/-- Witness for C2 on the empty buffer with cap 3. -/
theorem c2_witness_cap :
    parse_file [] (some 3) true = .ok [] ∧ ([] : List Read).length ≤ max 3 1 :=
  ⟨rfl, c2_cap_bound [] 3 true [] rfl⟩

set_option maxRecDepth 1000000 in
/-- Claim C3: (confirmed).  The read decoder returns `None` for a read whose
trace entry lists zero chains, so every read in the decoded output has a
nonempty chain list; decoding a trace whose only read has an empty chain
list yields zero reads. -/
theorem c3_empty_chain_reads_dropped :
    (∀ (bytes : List Nat) (i : Nat) (mo : Bool) (fuel : Nat) (r : Read) (j : Nat),
        parse_reads bytes i mo fuel = .ok (some r, j) → r.chains ≠ [])
    ∧ (∀ (bytes : List Nat) (n : Option Nat) (mo : Bool) (out : List Read),
        parse_file bytes n mo = .ok out → ∀ r ∈ out, 1 ≤ r.chains.length)
    ∧ parse_file empBuf none true = .ok [] := by
  refine ⟨parse_reads_some_nonempty, ?_, rfl⟩
  intro bytes n mo out h r hr
  have hne := parse_file_loop_nonempty bytes n mo (bytes.length + 1) 0 [] out
    (by simp) h r hr
  exact Nat.one_le_iff_ne_zero.mpr (fun h0 => hne (List.length_eq_zero.mp h0))

set_option maxRecDepth 1000000 in
/-- Witness for C3 on the concrete buffer `cexBuf`, whose single read is
decoded as `some cexRead`. -/
theorem c3_witness_nonempty : cexRead.chains ≠ [] :=
  c3_empty_chain_reads_dropped.1 cexBuf 0 true 198 cexRead 197 rfl
